import Mathlib

set_option maxRecDepth 4000

/-!
Verification of the mini-melbourne-3d vehicle-tracking core.

This file gives a shallow embedding, over exact rational arithmetic, of the
parts of the source relevant to the checked properties:

* the `Train` class (`src/Train.js`): `updatePosition`, `animate`,
  `easeInOutQuad`;
* the railway line-offset helpers (`src/helpers/line-offset.js`):
  `cleanGeometry`, `isValidCoordinates`, `offsetLine`, `calculateLineOffset`,
  `findSharedTrackSegments`, and the per-segment offset assignment of
  `applyRailwayOffsets`;
* the reconciliation step of `MelbourneMap.updateTrains` (`src/map.js`),
  i.e. the merge of a fresh snapshot into `this.trains` /
  `this.trainAnimations`;
* the bearing cache of `MelbourneMap.calculateTrainBearingFromRoute`
  (`src/map.js`).

JavaScript numbers are modelled as `ℚ`; the external Turf `lineOffset`
call is modelled as an arbitrary function returning `Option`, where `none`
stands for a thrown exception or a result with missing geometry.
-/

/-- A coordinate pair `[lon, lat]` as used throughout the source. -/
abbrev Coord := ℚ × ℚ

/-! ### Train (src/Train.js) -/

/-- The easing curve of `Train.easeInOutQuad`:
`t < 0.5 ? 2 * t * t : 1 - Math.pow(-2 * t + 2, 2) / 2`. -/
def easeInOutQuad (t : ℚ) : ℚ :=
  if t < 1 / 2 then 2 * t * t else 1 - (-2 * t + 2) ^ 2 / 2

/-- The fields of the `Train` class that the animation and reconciliation
logic reads and writes.  (Fields such as `bearing`, `speed` or `nextStop`
play no role in the verified properties and are omitted.) -/
structure Train where
  tripId : String
  vehicleType : String
  lat : ℚ
  lon : ℚ
  startLat : ℚ
  startLon : ℚ
  targetLat : ℚ
  targetLon : ℚ
  animationProgress : ℚ
deriving DecidableEq

/-- The position payload handed to `Train.updatePosition`. -/
structure PositionUpdate where
  lat : ℚ
  lon : ℚ
deriving DecidableEq

/-- `Train.updatePosition`: the current position becomes the animation
start, the payload becomes the target, and progress is reset to `0`. -/
def Train.updatePosition (tr : Train) (d : PositionUpdate) : Train :=
  { tr with
    startLat := tr.lat
    startLon := tr.lon
    targetLat := d.lat
    targetLon := d.lon
    animationProgress := 0 }

/-- `Train.animate(progress)`:
`this.animationProgress = Math.min(progress, 1)`, then the position is the
eased interpolation between start and target. -/
def Train.animate (tr : Train) (progress : ℚ) : Train :=
  let p := min progress 1
  let t := easeInOutQuad p
  { tr with
    animationProgress := p
    lat := tr.startLat + (tr.targetLat - tr.startLat) * t
    lon := tr.startLon + (tr.targetLon - tr.startLon) * t }

/-- A concrete train used by witnesses. -/
def sampleTrain : Train :=
  ⟨"t100", "metro", 0, 0, 0, 0, 1, 2, 0⟩

/-! ### Line-offset helpers (src/helpers/line-offset.js) -/

/-- The duplicate-point tolerance of `cleanGeometry`
(`const epsilon = 0.000001`). -/
def cleanEps : ℚ := 1 / 1000000

/-- `Math.abs`, written so that it evaluates by kernel reduction. -/
def qabs (x : ℚ) : ℚ :=
  if x < 0 then -x else x

/-- The keep condition of the `cleanGeometry` loop: the current point is
kept when `dx > epsilon || dy > epsilon` against the previous input point. -/
def farApart (prev curr : Coord) : Bool :=
  decide (qabs (curr.1 - prev.1) > cleanEps) || decide (qabs (curr.2 - prev.2) > cleanEps)

/-- The `for` loop of `cleanGeometry`: walks the tail of the input, always
comparing `coords[i]` with the raw input point `coords[i - 1]` (not with
the last point that was kept). -/
def cleanLoop : Coord → List Coord → List Coord
  | _, [] => []
  | prev, c :: rest => (if farApart prev c then [c] else []) ++ cleanLoop c rest

/-- `cleanGeometry`: inputs with fewer than 2 points are returned as is;
otherwise the first point plus the loop-kept tail, falling back to the
original input when fewer than 2 points survive. -/
def cleanGeometry : List Coord → List Coord
  | [] => []
  | [c] => [c]
  | c0 :: c1 :: rest =>
    let cleaned := c0 :: cleanLoop c0 (c1 :: rest)
    if 2 ≤ cleaned.length then cleaned else c0 :: c1 :: rest

/-- One coordinate passes the bounds check of `isValidCoordinates`
(rejects `lon < 100 || lon > 180 || lat < -45 || lat > -30`; the NaN and
Infinity checks are vacuous over `ℚ`). -/
def validCoord (c : Coord) : Bool :=
  decide (100 ≤ c.1) && decide (c.1 ≤ 180) && decide (-45 ≤ c.2) && decide (c.2 ≤ -30)

/-- `isValidCoordinates`: every coordinate of the list passes the bounds
check. -/
def isValidCoordinates (coords : List Coord) : Bool :=
  coords.all validCoord

/-- `offsetLine(line, distance)`.  A line is its coordinate array; the
null-geometry guards of the source are not representable over total
lists.  `turf` stands for the external `@turf/line-offset` call; `none`
models a thrown exception or a result with missing geometry, both of
which the source maps to the original line. -/
def offsetLine (turf : List Coord → ℚ → Option (List Coord))
    (line : List Coord) (distance : ℚ) : List Coord :=
  if distance = 0 then line
  else
    let cleanedCoords := cleanGeometry line
    if ¬ (isValidCoordinates cleanedCoords = true) then line
    else if cleanedCoords.length < 2 then line
    else
      match turf cleanedCoords (distance / 1000) with
      | none => line
      | some offsetResult =>
        if offsetResult.length < 2 then line
        else if ¬ (isValidCoordinates offsetResult = true) then line
        else offsetResult

/-- `calculateLineOffset(lineIndex, totalLines, baseOffset)`. -/
def calculateLineOffset (lineIndex totalLines : ℕ) (baseOffset : ℚ) : ℚ :=
  if totalLines = 1 then 0
  else ((lineIndex : ℚ) - ((totalLines : ℚ) - 1) / 2) * baseOffset

/-! ### Shared track segments (src/helpers/line-offset.js) -/

/-- `toFixed(5)` as a rounding to an integer number of `10⁻⁵` units;
the ECMAScript `toFixed` picks the larger candidate on ties, which is
exactly `round`.  Signature strings are equal iff the rounded values are. -/
def round5 (x : ℚ) : ℤ :=
  round (x * 100000)

/-- A segment signature: the two endpoints, in traversal order, rounded
to 5 decimals — the content of the template string
`lon1,lat1_lon2,lat2` built by `findSharedTrackSegments`. -/
abbrev Sig := (ℤ × ℤ) × (ℤ × ℤ)

/-- The signature of the segment from `p` to `q`. -/
def seg_signature (p q : Coord) : Sig :=
  ((round5 p.1, round5 p.2), (round5 q.1, round5 q.2))

/-- The consecutive-pair segments of a coordinate list, in traversal
order (the `i` / `i + 1` loop of `findSharedTrackSegments`). -/
def segmentsOf : List Coord → List (Coord × Coord)
  | [] => []
  | [_] => []
  | a :: b :: rest => (a, b) :: segmentsOf (b :: rest)

/-- A railway as consumed by the offset helpers: its id and its
`geometry.coordinates`. -/
structure Railway where
  id : String
  coords : List Coord
deriving DecidableEq

/-- One entry pushed into the segment map:
`{railwayId, railwayIndex, segmentIndex}`. -/
structure SegRef where
  railwayId : String
  railwayIndex : ℕ
  segmentIndex : ℕ
deriving DecidableEq

/-- The signature/entry pairs contributed by one railway, scanning its
segments in order; `si` is the running segment index. -/
def refsAux (rid : String) (idx : ℕ) : ℕ → List Coord → List (Sig × SegRef)
  | _, [] => []
  | _, [_] => []
  | si, a :: b :: rest =>
    (seg_signature a b, ⟨rid, idx, si⟩) :: refsAux rid idx (si + 1) (b :: rest)

/-- All signature/entry pairs, railways scanned in array order starting
at index `idx` (the `railways.forEach((railway, index))` loop). -/
def allSegRefsAux : ℕ → List Railway → List (Sig × SegRef)
  | _, [] => []
  | idx, r :: rest => refsAux r.id idx 0 r.coords ++ allSegRefsAux (idx + 1) rest

/-- The value the segment map holds at key `sig`: the entries pushed for
that signature, in insertion order. -/
def contributors (railways : List Railway) (sig : Sig) : List SegRef :=
  ((allSegRefsAux 0 railways).filter (fun e => decide (e.1 = sig))).map Prod.snd

/-- First-occurrence deduplication — the key iteration order of a
JavaScript `Map`. -/
def firstDedup {α : Type} [DecidableEq α] : List α → List α
  | [] => []
  | a :: l => a :: firstDedup (l.filter (fun b => decide (b ≠ a)))
termination_by l => l.length
decreasing_by
  simp only [List.length_cons]
  exact Nat.lt_succ_of_le (List.length_filter_le _ _)

/-- `findSharedTrackSegments`: the map entries whose contributor list has
more than one element, keyed and ordered as the source `Map`. -/
def findSharedTrackSegments (railways : List Railway) : List (Sig × List SegRef) :=
  (firstDedup ((allSegRefsAux 0 railways).map Prod.fst)).filterMap
    (fun sig =>
      let l := contributors railways sig
      if 1 < l.length then some (sig, l) else none)

/-- `configs.railwayOffsetDistance` (5 metres). -/
def railwayOffsetDistance : ℚ := 5

/-- The per-segment offset assignment of `applyRailwayOffsets`: for one
shared signature, each contributor at list position `index` receives
`calculateLineOffset(index, totalLines, configs.railwayOffsetDistance)`. -/
def segmentOffsets (railways : List Railway) (sig : Sig) : List (String × ℚ) :=
  let l := contributors railways sig
  l.enum.map (fun p => (p.2.railwayId, calculateLineOffset p.1 l.length railwayOffsetDistance))

/-- The rank the spec sentence predicts: the number of contributing route
names lexicographically before this one. -/
def lexRank (names : List String) (name : String) : ℕ :=
  (names.filter (fun y => decide (y < name))).length

/-! ### updateTrains reconciliation (src/map.js) -/

/-- The per-type update counters incremented at the top of
`updateTrains`. -/
structure UpdateCounters where
  metro : ℕ
  vline : ℕ
  tram : ℕ
  bus : ℕ
deriving DecidableEq

/-- All four counters incremented (`this.updateCounters.metro++; ...`). -/
def incCounters (c : UpdateCounters) : UpdateCounters :=
  ⟨c.metro + 1, c.vline + 1, c.tram + 1, c.bus + 1⟩

/-- The differential-frequency policy `shouldUpdateVehicle`. -/
def shouldUpdateVehicle (c : UpdateCounters) (t : String) : Bool :=
  if t = "metro" then true
  else if t = "vline" then true
  else if t = "tram" then decide (c.tram % 2 = 0)
  else if t = "bus" then decide (c.bus % 3 = 0)
  else true

/-- The map-relevant mutable state of `MelbourneMap`: the tracked vehicle
array `this.trains`, the key set of the `Map<tripId, animationId>`
`this.trainAnimations` (an animation id itself carries no information the
claims need), and the update counters. -/
structure MapState where
  trains : List Train
  trainAnimations : List String
  updateCounters : UpdateCounters
deriving DecidableEq

/-- `this.trainAnimations.set(tripId, animId)` on the key set: keys are
never removed by `set`, a fresh key is appended. -/
def setAnimKey (keys : List String) (id : String) : List String :=
  if id ∈ keys then keys else keys ++ [id]

/-- In-place `updatePosition` on the first train whose `tripId` matches
the snapshot train (the object returned by `this.trains.find`). -/
def updateFirst (trains : List Train) (nt : Train) : List Train :=
  match trains with
  | [] => []
  | t :: rest =>
    if t.tripId = nt.tripId then t.updatePosition ⟨nt.lat, nt.lon⟩ :: rest
    else t :: updateFirst rest nt

/-- The body of the per-snapshot-train `forEach` in `updateTrains`: an
existing train is updated in place and its animation slot re-`set`
(the old animation is stopped, its key stays); an unseen train is
pushed. -/
def processTrain (st : MapState) (nt : Train) : MapState :=
  if (st.trains.find? (fun t => decide (t.tripId = nt.tripId))).isSome then
    { st with
      trains := updateFirst st.trains nt
      trainAnimations := setAnimKey st.trainAnimations nt.tripId }
  else
    { st with trains := st.trains ++ [nt] }

/-- The reconciliation cycle of `updateTrains` after `mergeTrainData`
produced the snapshot `updatedTrains`: bump counters, run the update
loop over the frequency-filtered snapshot, then keep only trains whose
`tripId` is in `activeTripIds` (built from the unfiltered snapshot). -/
def updateTrainsReconcile (st0 : MapState) (updatedTrains : List Train) : MapState :=
  let st1 : MapState := { st0 with updateCounters := incCounters st0.updateCounters }
  let filtered := updatedTrains.filter
    (fun nt => shouldUpdateVehicle st1.updateCounters nt.vehicleType)
  let st2 := filtered.foldl processTrain st1
  let activeTripIds := updatedTrains.map Train.tripId
  { st2 with trains := st2.trains.filter (fun t => activeTripIds.contains t.tripId) }

/-! ### Bearing cache (src/map.js, calculateTrainBearingFromRoute) -/

/-- `train._bearingCache`. -/
structure BearingCache where
  bearing : Option ℚ
  frameCount : ℕ
  lastPosition : Option Coord
deriving DecidableEq

/-- The position epsilon of the cache check (`0.0001` degrees per axis). -/
def bearingEps : ℚ := 1 / 10000

/-- `positionChanged`: truthy only when a last position is cached and the
current position moved more than the epsilon on some axis. -/
def positionChangedB (lastPos : Option Coord) (pos : Coord) : Bool :=
  match lastPos with
  | none => false
  | some lp =>
    decide (qabs (pos.1 - lp.1) > bearingEps) || decide (qabs (pos.2 - lp.2) > bearingEps)

/-- The cache-hit condition: a cached bearing exists, fewer than 10
frames have elapsed since it was cached, and the position is unchanged
within epsilon. -/
def cacheHit (c : BearingCache) (pos : Coord) : Bool :=
  c.bearing.isSome && decide (c.frameCount < 10) && !(positionChangedB c.lastPosition pos)

/-- One invocation of `calculateTrainBearingFromRoute` on the cache
state.  `compute` abstracts the closest-railway-segment search (lines
1034–1093 of map.js); it returns `none` when no matching railway or
segment exists, in which case the source returns `null` without touching
the cached bearing.  The frame counter is incremented first; on a miss
the counter is reset and the position re-anchored before the search. -/
def calculateTrainBearingFromRoute (compute : Coord → Option ℚ)
    (cache : BearingCache) (pos : Coord) : Option ℚ × BearingCache :=
  let c1 : BearingCache := { cache with frameCount := cache.frameCount + 1 }
  if cacheHit c1 pos then
    (c1.bearing, c1)
  else
    let c2 : BearingCache := { c1 with frameCount := 0, lastPosition := some pos }
    match compute pos with
    | none => (none, c2)
    | some b => (some b, { c2 with bearing := some b })

/-- The result/state trace of repeated invocations with position
sequence `ps`, starting from cache state `init`. -/
def bearingTrace (compute : Coord → Option ℚ) (init : BearingCache)
    (ps : ℕ → Coord) : ℕ → Option ℚ × BearingCache
  | 0 => calculateTrainBearingFromRoute compute init (ps 0)
  | n + 1 => calculateTrainBearingFromRoute compute (bearingTrace compute init ps n).2 (ps (n + 1))

/-! ### Concrete inputs for counterexamples and witnesses -/

/-- A Melbourne-area point. -/
def cA : Coord := (1449 / 10, -378 / 10)

/-- A second Melbourne-area point, distinct from `cA` after rounding. -/
def cB : Coord := (145, -379 / 10)

/-- Two railways traversing the same segment in opposite directions. -/
def oppositeRailways : List Railway :=
  [⟨"R1", [cA, cB]⟩, ⟨"R2", [cB, cA]⟩]

/-- Two railways traversing the same segment in the same direction, with
route names in anti-lexicographic array order. -/
def sameDirRailways : List Railway :=
  [⟨"B", [cA, cB]⟩, ⟨"A", [cA, cB]⟩]

/-- A polyline whose cleaned output keeps two points that are within the
epsilon of each other: the middle point is skipped against the first, and
the last point is kept against the raw middle point. -/
def closePolyline : List Coord :=
  [(1449 / 10, -378 / 10), (1449 / 10 - 1 / 1000000, -378 / 10),
   (1449 / 10 + 1 / 2000000, -378 / 10)]

/-- A tracked train present before a refresh cycle. -/
def trainOne : Train :=
  ⟨"trip1", "metro", 1449 / 10, -378 / 10, 1449 / 10, -378 / 10,
    1449 / 10, -378 / 10, 1⟩

/-- A snapshot train with a different trip id. -/
def trainTwo : Train :=
  ⟨"trip2", "metro", 145, -379 / 10, 145, -379 / 10, 145, -379 / 10, 1⟩

/-- A map state tracking `trainOne` with an in-flight animation. -/
def sampleState : MapState :=
  ⟨[trainOne], ["trip1"], ⟨0, 0, 0, 0⟩⟩

/-! ## Theorems -/

/-! ### Easing-curve lemmas -/

lemma easeInOutQuad_half : easeInOutQuad (1 / 2) = 1 / 2 := by
  norm_num [easeInOutQuad]

lemma easeInOutQuad_one : easeInOutQuad 1 = 1 := by
  norm_num [easeInOutQuad]

lemma easeInOutQuad_nonneg {t : ℚ} (h0 : 0 ≤ t) (h1 : t ≤ 1) :
    0 ≤ easeInOutQuad t := by
  unfold easeInOutQuad
  split_ifs with h
  · positivity
  · nlinarith

lemma easeInOutQuad_le_one {t : ℚ} (h0 : 0 ≤ t) (h1 : t ≤ 1) :
    easeInOutQuad t ≤ 1 := by
  unfold easeInOutQuad
  split_ifs with h
  · nlinarith
  · nlinarith [sq_nonneg (-2 * t + 2)]

lemma lerp_between {s tg e : ℚ} (h0 : 0 ≤ e) (h1 : e ≤ 1) :
    min s tg ≤ s + (tg - s) * e ∧ s + (tg - s) * e ≤ max s tg := by
  rcases le_total s tg with h | h
  · rw [min_eq_left h, max_eq_right h]
    constructor <;> nlinarith
  · rw [min_eq_right h, max_eq_left h]
    constructor <;> nlinarith

/-- C9: at the animation midpoint the eased parameter is exactly `1/2`,
so the animated position is the exact linear midpoint of start and
target on both axes. -/
theorem train_animate_midpoint (tr : Train) :
    easeInOutQuad (1 / 2) = 1 / 2 ∧
    (tr.animate (1 / 2)).lat = (tr.startLat + tr.targetLat) / 2 ∧
    (tr.animate (1 / 2)).lon = (tr.startLon + tr.targetLon) / 2 := by
  refine ⟨easeInOutQuad_half, ?_, ?_⟩ <;>
    · simp only [Train.animate]
      rw [show min (1 / 2 : ℚ) 1 = 1 / 2 by norm_num, easeInOutQuad_half]
      ring

/-- C10: `Train.animate` clamps progress to at most 1; any progress `≥ 1`
lands exactly on the target, and for progress in `[0, 1]` each animated
coordinate stays between the corresponding start and target coordinates:
the animation never overshoots. -/
theorem train_animate_no_overshoot (tr : Train) (p : ℚ) :
    (tr.animate p).animationProgress ≤ 1 ∧
    (1 ≤ p → (tr.animate p).lat = tr.targetLat ∧ (tr.animate p).lon = tr.targetLon) ∧
    (0 ≤ p → p ≤ 1 →
      min tr.startLat tr.targetLat ≤ (tr.animate p).lat ∧
      (tr.animate p).lat ≤ max tr.startLat tr.targetLat ∧
      min tr.startLon tr.targetLon ≤ (tr.animate p).lon ∧
      (tr.animate p).lon ≤ max tr.startLon tr.targetLon) := by
  refine ⟨?_, ?_, ?_⟩
  · simp [Train.animate]
  · intro hp
    have hmin : min p 1 = 1 := min_eq_right hp
    simp only [Train.animate, hmin, easeInOutQuad_one]
    constructor <;> ring
  · intro h0 h1
    have hmin : min p 1 = p := min_eq_left h1
    have he0 : 0 ≤ easeInOutQuad p := easeInOutQuad_nonneg h0 h1
    have he1 : easeInOutQuad p ≤ 1 := easeInOutQuad_le_one h0 h1
    simp only [Train.animate, hmin]
    exact ⟨(lerp_between he0 he1).1, (lerp_between he0 he1).2,
      (lerp_between he0 he1).1, (lerp_between he0 he1).2⟩

/-- Witness for `train_animate_no_overshoot`: concrete train, progress
`2` (clamped to the target) and progress `1/4` (stays in range). -/
theorem train_animate_no_overshoot_witness :
    (sampleTrain.animate 2).lat = sampleTrain.targetLat ∧
    min sampleTrain.startLat sampleTrain.targetLat ≤ (sampleTrain.animate (1 / 4)).lat :=
  ⟨((train_animate_no_overshoot sampleTrain 2).2.1 (by norm_num)).1,
    ((train_animate_no_overshoot sampleTrain (1 / 4)).2.2 (by norm_num) (by norm_num)).1⟩

/-! ### calculateLineOffset (C7) -/

/-- C7: for `0 ≤ i < n` the assigned offset is exactly
`(i - (n - 1) / 2) * baseOffset` (the `n = 1` shortcut also returns the
formula value `0`), and for `n = 2`, `baseOffset = 8` the two
contributors receive `-4` and `+4`. -/
theorem calculateLineOffset_formula (i n : ℕ) (b : ℚ) (h : i < n) :
    calculateLineOffset i n b = ((i : ℚ) - ((n : ℚ) - 1) / 2) * b ∧
    calculateLineOffset 0 2 8 = -4 ∧ calculateLineOffset 1 2 8 = 4 := by
  refine ⟨?_, by norm_num [calculateLineOffset], by norm_num [calculateLineOffset]⟩
  unfold calculateLineOffset
  split_ifs with h1
  · subst h1
    interval_cases i
    norm_num
  · rfl

/-- Witness for `calculateLineOffset_formula` at `i = 0`, `n = 1`:
a single line gets offset `0`. -/
theorem calculateLineOffset_formula_witness :
    calculateLineOffset 0 1 8 = ((0 : ℚ) - ((1 : ℚ) - 1) / 2) * 8 :=
  (calculateLineOffset_formula 0 1 8 (by norm_num)).1

/-! ### offsetLine (C6) -/

/-- C6: whatever the external Turf offset call does (including throwing,
modelled by `none`), `offsetLine` either returns the original line
unchanged or a result that passes the bounds validation and has at least
2 points. -/
theorem offsetLine_safe (turf : List Coord → ℚ → Option (List Coord))
    (line : List Coord) (distance : ℚ) :
    offsetLine turf line distance = line ∨
      (isValidCoordinates (offsetLine turf line distance) = true ∧
        2 ≤ (offsetLine turf line distance).length) := by
  unfold offsetLine
  dsimp only
  split
  · exact Or.inl rfl
  · split
    · exact Or.inl rfl
    · split
      · exact Or.inl rfl
      · split
        · exact Or.inl rfl
        · split
          · exact Or.inl rfl
          · rename_i h4
            split
            · exact Or.inl rfl
            · rename_i h5
              exact Or.inr ⟨by simpa using h5, by omega⟩

/-! ### cleanGeometry (C5) -/

lemma cleanLoop_sublist (prev : Coord) (l : List Coord) :
    (cleanLoop prev l).Sublist l := by
  induction l generalizing prev with
  | nil => simp [cleanLoop]
  | cons c rest ih =>
    rw [cleanLoop]
    split_ifs with h
    · simpa using (ih c).cons₂ c
    · simpa using (ih c).cons c

lemma cleanLoop_mem {b : Coord} (prev : Coord) (l : List Coord)
    (hb : b ∈ cleanLoop prev l) :
    ∃ a, (a, b) ∈ segmentsOf (prev :: l) ∧ farApart a b = true := by
  induction l generalizing prev with
  | nil => simp [cleanLoop] at hb
  | cons c rest ih =>
    rw [cleanLoop] at hb
    rw [List.mem_append] at hb
    rcases hb with hb | hb
    · split_ifs at hb with h
      · rcases List.mem_singleton.mp hb with rfl
        exact ⟨prev, by simp [segmentsOf], h⟩
      · simp at hb
    · rcases ih c hb with ⟨a, ha, hfar⟩
      refine ⟨a, ?_, hfar⟩
      cases rest with
      | nil =>
        simp [segmentsOf] at ha
      | cons d rest2 =>
        rw [show segmentsOf (prev :: c :: d :: rest2) =
          (prev, c) :: segmentsOf (c :: d :: rest2) from rfl]
        exact List.mem_cons_of_mem _ ha

/-- C5 (amended): `cleanGeometry` returns either the input unchanged or a
subsequence of it, so the output length never exceeds the input length;
when the cleaned list is returned, every output point after the first was
kept because it is farther than epsilon (on some axis) from its
immediately preceding raw input point.  (Two consecutive output points
can nonetheless be within epsilon of each other, because the loop
compares against the previous input point, not the last kept point.) -/
theorem cleanGeometry_spec (coords : List Coord) :
    (cleanGeometry coords).Sublist coords ∧
    (cleanGeometry coords).length ≤ coords.length ∧
    (cleanGeometry coords = coords ∨
      ∀ b ∈ (cleanGeometry coords).tail,
        ∃ a, (a, b) ∈ segmentsOf coords ∧ farApart a b = true) := by
  match coords with
  | [] => exact ⟨List.Sublist.refl _, le_refl _, Or.inl rfl⟩
  | [c] => exact ⟨List.Sublist.refl _, le_refl _, Or.inl rfl⟩
  | c0 :: c1 :: rest =>
    rw [cleanGeometry]
    split_ifs with h
    · have hsub : (c0 :: cleanLoop c0 (c1 :: rest)).Sublist (c0 :: c1 :: rest) :=
        (cleanLoop_sublist c0 (c1 :: rest)).cons₂ c0
      refine ⟨hsub, hsub.length_le, Or.inr ?_⟩
      intro b hb
      exact cleanLoop_mem c0 (c1 :: rest) (by simpa using hb)
    · exact ⟨List.Sublist.refl _, le_refl _, Or.inl rfl⟩

/-- Witness for `cleanGeometry_spec` on `closePolyline`: the last point
is kept and the theorem certifies it was kept against its raw
predecessor. -/
theorem cleanGeometry_spec_witness :
    ∃ a, (a, (1449 / 10 + 1 / 2000000, -378 / 10)) ∈ segmentsOf closePolyline ∧
      farApart a (1449 / 10 + 1 / 2000000, -378 / 10) = true := by
  rcases (cleanGeometry_spec closePolyline).2.2 with h | h
  · refine absurd h ?_
    norm_num [closePolyline, cleanGeometry, cleanLoop, farApart, qabs, cleanEps]
  · refine h (1449 / 10 + 1 / 2000000, -378 / 10) ?_
    norm_num [closePolyline, cleanGeometry, cleanLoop, farApart, qabs, cleanEps]

/-- C5 fails as stated: on this 3-point polyline the cleaned output is a
pair of consecutive points that are within the epsilon tolerance of each
other on both axes. -/
theorem cleanGeometry_claim_counterexample :
    cleanGeometry closePolyline =
      [(1449 / 10, -378 / 10), (1449 / 10 + 1 / 2000000, -378 / 10)] ∧
    farApart (1449 / 10, -378 / 10) (1449 / 10 + 1 / 2000000, -378 / 10) = false ∧
    (cleanGeometry closePolyline).length ≤ closePolyline.length := by
  refine ⟨?_, ?_, ?_⟩ <;>
    norm_num [closePolyline, cleanGeometry, cleanLoop, farApart, qabs, cleanEps]

/-! ### Shared-segment lemmas (C3, C4) -/

lemma refsAux_railwayIndex {rid : String} {idx : ℕ} :
    ∀ (si : ℕ) (coords : List Coord) (e : Sig × SegRef),
      e ∈ refsAux rid idx si coords → e.2.railwayIndex = idx := by
  intro si coords
  induction coords generalizing si with
  | nil => simp [refsAux]
  | cons a rest ih =>
    cases rest with
    | nil => simp [refsAux]
    | cons b rest2 =>
      intro e he
      rw [refsAux] at he
      rcases List.mem_cons.mp he with rfl | he
      · rfl
      · exact ih (si + 1) e he

lemma refsAux_mem_of_segment (rid : String) (idx : ℕ) {p q : Coord} :
    ∀ (si : ℕ) (coords : List Coord), (p, q) ∈ segmentsOf coords →
      ∃ si', (seg_signature p q, (⟨rid, idx, si'⟩ : SegRef)) ∈ refsAux rid idx si coords := by
  intro si coords
  induction coords generalizing si with
  | nil => simp [segmentsOf]
  | cons a rest ih =>
    cases rest with
    | nil => simp [segmentsOf]
    | cons b rest2 =>
      intro hmem
      rw [segmentsOf] at hmem
      rcases List.mem_cons.mp hmem with heq | hmem
      · rcases Prod.mk.injEq .. ▸ heq with ⟨rfl, rfl⟩
        exact ⟨si, by rw [refsAux]; exact List.mem_cons_self _ _⟩
      · rcases ih (si + 1) hmem with ⟨si', hsi⟩
        exact ⟨si', by rw [refsAux]; exact List.mem_cons_of_mem _ hsi⟩

lemma allSegRefsAux_railwayIndex_le :
    ∀ (idx : ℕ) (railways : List Railway) (e : Sig × SegRef),
      e ∈ allSegRefsAux idx railways → idx ≤ e.2.railwayIndex := by
  intro idx railways
  induction railways generalizing idx with
  | nil => simp [allSegRefsAux]
  | cons r rest ih =>
    intro e he
    rw [allSegRefsAux] at he
    rcases List.mem_append.mp he with he | he
    · exact le_of_eq (refsAux_railwayIndex 0 r.coords e he).symm
    · exact le_trans (Nat.le_succ idx) (ih (idx + 1) e he)

lemma allSegRefsAux_pairwise :
    ∀ (idx : ℕ) (railways : List Railway),
      List.Pairwise (fun a b : Sig × SegRef => a.2.railwayIndex ≤ b.2.railwayIndex)
        (allSegRefsAux idx railways) := by
  intro idx railways
  induction railways generalizing idx with
  | nil => simp [allSegRefsAux]
  | cons r rest ih =>
    rw [allSegRefsAux]
    refine List.pairwise_append.mpr ⟨?_, ih (idx + 1), ?_⟩
    · refine List.pairwise_of_forall_mem_list ?_
      intro a ha b hb
      rw [refsAux_railwayIndex 0 r.coords a ha, refsAux_railwayIndex 0 r.coords b hb]
    · intro a ha b hb
      rw [refsAux_railwayIndex 0 r.coords a ha]
      exact le_trans (Nat.le_succ idx) (allSegRefsAux_railwayIndex_le (idx + 1) rest b hb)

lemma mem_allSegRefsAux_of_getElem :
    ∀ (base k : ℕ) (railways : List Railway) (r : Railway) (x : Sig × SegRef),
      railways[k]? = some r → x ∈ refsAux r.id (base + k) 0 r.coords →
      x ∈ allSegRefsAux base railways := by
  intro base k railways
  induction railways generalizing base k with
  | nil => simp
  | cons r0 rest ih =>
    intro r x hget hx
    cases k with
    | zero =>
      rw [List.getElem?_cons_zero] at hget
      cases Option.some.injEq .. ▸ hget
      rw [allSegRefsAux]
      exact List.mem_append.mpr (Or.inl hx)
    | succ k =>
      rw [List.getElem?_cons_succ] at hget
      rw [allSegRefsAux]
      refine List.mem_append.mpr (Or.inr ?_)
      have : base + (k + 1) = (base + 1) + k := by omega
      exact ih (base + 1) k r x hget (this ▸ hx)

lemma mem_firstDedup {α : Type} [DecidableEq α] :
    ∀ (l : List α) (a : α), a ∈ l → a ∈ firstDedup l := by
  intro l
  induction l using firstDedup.induct with
  | case1 => simp
  | case2 x l ih =>
    intro a ha
    rw [firstDedup]
    rcases List.mem_cons.mp ha with rfl | ha
    · exact List.mem_cons_self _ _
    · by_cases hax : a = x
      · exact hax ▸ List.mem_cons_self _ _
      · refine List.mem_cons_of_mem _ (ih a ?_)
        exact List.mem_filter.mpr ⟨ha, by simpa using hax⟩

lemma two_le_length_of_two_mem {α : Type} [DecidableEq α] {l : List α} {a b : α}
    (ha : a ∈ l) (hb : b ∈ l) (hab : a ≠ b) : 2 ≤ l.length := by
  have hb' : b ∈ l.erase a := (List.mem_erase_of_ne (Ne.symm hab)).mpr hb
  have h1 : 1 ≤ (l.erase a).length := List.length_pos_of_mem hb'
  have h2 : (l.erase a).length = l.length - 1 := List.length_erase_of_mem ha
  have h3 : 1 ≤ l.length := List.length_pos_of_mem ha
  omega

/-- C3 (amended): the segment signature of `findSharedTrackSegments`
preserves traversal order — it is order-dependent, not order-independent.
Opposite traversals get equal signatures only when the two rounded
endpoints coincide; two routes containing the same segment in the SAME
direction contribute to one signature, which is then detected as shared. -/
theorem seg_signature_direction :
    (∀ p q : Coord, seg_signature p q = seg_signature q p ↔
      (round5 p.1 = round5 q.1 ∧ round5 p.2 = round5 q.2)) ∧
    (∀ (railways : List Railway) (i j : ℕ) (ri rj : Railway) (p q : Coord),
      i ≠ j → railways[i]? = some ri → railways[j]? = some rj →
      (p, q) ∈ segmentsOf ri.coords → (p, q) ∈ segmentsOf rj.coords →
      1 < (contributors railways (seg_signature p q)).length ∧
      (seg_signature p q, contributors railways (seg_signature p q)) ∈
        findSharedTrackSegments railways) := by
  constructor
  · intro p q
    constructor
    · intro h
      rcases Prod.mk.injEq .. ▸ h with ⟨h1, _⟩
      rcases Prod.mk.injEq .. ▸ h1 with ⟨ha, hb⟩
      exact ⟨ha, hb⟩
    · rintro ⟨h1, h2⟩
      simp [seg_signature, h1, h2]
  · intro railways i j ri rj p q hij hi hj hpi hpj
    rcases refsAux_mem_of_segment ri.id i 0 ri.coords hpi with ⟨si, hsi⟩
    rcases refsAux_mem_of_segment rj.id j 0 rj.coords hpj with ⟨sj, hsj⟩
    have he1 : (seg_signature p q, (⟨ri.id, i, si⟩ : SegRef)) ∈ allSegRefsAux 0 railways :=
      mem_allSegRefsAux_of_getElem 0 i railways ri _ hi (by simpa using hsi)
    have he2 : (seg_signature p q, (⟨rj.id, j, sj⟩ : SegRef)) ∈ allSegRefsAux 0 railways :=
      mem_allSegRefsAux_of_getElem 0 j railways rj _ hj (by simpa using hsj)
    have hf1 : (seg_signature p q, (⟨ri.id, i, si⟩ : SegRef)) ∈
        (allSegRefsAux 0 railways).filter (fun e => decide (e.1 = seg_signature p q)) :=
      List.mem_filter.mpr ⟨he1, by simp⟩
    have hf2 : (seg_signature p q, (⟨rj.id, j, sj⟩ : SegRef)) ∈
        (allSegRefsAux 0 railways).filter (fun e => decide (e.1 = seg_signature p q)) :=
      List.mem_filter.mpr ⟨he2, by simp⟩
    have hne : (seg_signature p q, (⟨ri.id, i, si⟩ : SegRef)) ≠
        (seg_signature p q, (⟨rj.id, j, sj⟩ : SegRef)) := by
      intro h
      rcases Prod.mk.injEq .. ▸ h with ⟨_, h2⟩
      exact hij (congrArg SegRef.railwayIndex h2)
    have hlen : 1 < (contributors railways (seg_signature p q)).length := by
      have := two_le_length_of_two_mem hf1 hf2 hne
      simpa [contributors] using this
    refine ⟨hlen, ?_⟩
    have hsigmem : seg_signature p q ∈ (allSegRefsAux 0 railways).map Prod.fst :=
      List.mem_map.mpr ⟨_, he1, rfl⟩
    have hdedup : seg_signature p q ∈ firstDedup ((allSegRefsAux 0 railways).map Prod.fst) :=
      mem_firstDedup _ _ hsigmem
    unfold findSharedTrackSegments
    refine List.mem_filterMap.mpr ⟨seg_signature p q, hdedup, ?_⟩
    simp only [if_pos hlen]

/-- Witness for `seg_signature_direction`: two concrete railways that
traverse the segment `cA → cB` in the same direction are detected as
sharing it. -/
theorem seg_signature_direction_witness :
    (seg_signature cA cB, contributors sameDirRailways (seg_signature cA cB)) ∈
      findSharedTrackSegments sameDirRailways :=
  (seg_signature_direction.2 sameDirRailways 0 1 ⟨"B", [cA, cB]⟩ ⟨"A", [cA, cB]⟩ cA cB
    (by norm_num) rfl rfl (by simp [segmentsOf]) (by simp [segmentsOf])).2

/-- C3 fails as stated: the same segment traversed in opposite directions
by two routes yields two different signatures, and
`findSharedTrackSegments` detects no shared segment at all. -/
theorem seg_signature_claim_counterexample :
    seg_signature cA cB ≠ seg_signature cB cA ∧
    findSharedTrackSegments oppositeRailways = [] := by
  constructor
  · norm_num [seg_signature, cA, cB, round5, round_eq]
  · norm_num [findSharedTrackSegments, oppositeRailways, allSegRefsAux, refsAux,
      contributors, firstDedup, seg_signature, cA, cB, round5, round_eq]

/-- C4 (amended): for every shared-segment signature, the rank `i` used
in the offset formula is the contributor's position in the segment map's
insertion order, which follows the railways' positions in the input
array (the `railwayIndex` fields are nondecreasing along the list), not
a lexicographic ordering by route name; the offsets are assigned to the
contributors' route ids in exactly that list order. -/
theorem contributors_input_order (railways : List Railway) (sig : Sig) :
    List.Pairwise (fun a b : SegRef => a.railwayIndex ≤ b.railwayIndex)
      (contributors railways sig) ∧
    (segmentOffsets railways sig).map Prod.fst =
      (contributors railways sig).map SegRef.railwayId := by
  constructor
  · have hp := allSegRefsAux_pairwise 0 railways
    have hf := hp.filter (fun e => decide (e.1 = sig))
    unfold contributors
    exact List.pairwise_map.mpr hf
  · unfold segmentOffsets
    simp only [List.map_map]
    rw [show (Prod.fst ∘ fun p : ℕ × SegRef =>
        (p.2.railwayId, calculateLineOffset p.1
          (contributors railways sig).length railwayOffsetDistance)) =
      SegRef.railwayId ∘ Prod.snd from rfl]
    rw [← List.map_map, List.enum_map_snd]

/-- C4 fails as stated: with route names in anti-lexicographic array
order, "B" (array position 0) receives the rank-0 offset `-5/2`, while
its lexicographic rank among the contributors is 1, whose offset would
be `+5/2`. -/
theorem contributors_lex_counterexample :
    (contributors sameDirRailways (seg_signature cA cB)).map SegRef.railwayId = ["B", "A"] ∧
    segmentOffsets sameDirRailways (seg_signature cA cB) = [("B", -5 / 2), ("A", 5 / 2)] ∧
    lexRank ["B", "A"] "B" = 1 ∧
    calculateLineOffset 1 2 railwayOffsetDistance = 5 / 2 ∧ (5 / 2 : ℚ) ≠ -5 / 2 := by
  refine ⟨?_, ?_, ?_, ?_, by norm_num⟩
  · norm_num [contributors, sameDirRailways, allSegRefsAux, refsAux,
      seg_signature, cA, cB, round5, round_eq]
  · norm_num [segmentOffsets, contributors, sameDirRailways, allSegRefsAux, refsAux,
      seg_signature, cA, cB, round5, round_eq, List.enum, calculateLineOffset,
      railwayOffsetDistance]
  · with_unfolding_all decide
  · norm_num [calculateLineOffset, railwayOffsetDistance]

/-! ### updateTrains reconciliation (C1, C2) -/

lemma setAnimKey_mem {keys : List String} {id x : String} (h : id ∈ keys) :
    id ∈ setAnimKey keys x := by
  unfold setAnimKey
  split_ifs with hx
  · exact h
  · exact List.mem_append.mpr (Or.inl h)

lemma processTrain_anims_mono {st : MapState} {nt : Train} {id : String}
    (h : id ∈ st.trainAnimations) : id ∈ (processTrain st nt).trainAnimations := by
  unfold processTrain
  split_ifs with hf
  · exact setAnimKey_mem h
  · exact h

lemma foldl_processTrain_anims_mono :
    ∀ (l : List Train) (st : MapState) (id : String),
      id ∈ st.trainAnimations → id ∈ (l.foldl processTrain st).trainAnimations := by
  intro l
  induction l with
  | nil => intro st id h; exact h
  | cons nt rest ih =>
    intro st id h
    exact ih (processTrain st nt) id (processTrain_anims_mono h)

/-- C1 (amended): when every per-type fetch fails, the merged snapshot is
empty and reconciliation CLEARS the tracked vehicle set — the final
filter against the (empty) set of active trip ids removes every
previously tracked vehicle, rather than leaving the set unchanged. -/
theorem updateTrains_empty_snapshot_clears (st : MapState) :
    (updateTrainsReconcile st []).trains = [] := by
  unfold updateTrainsReconcile
  simp

/-- C1 fails as stated: a state tracking one vehicle is not left
unchanged by a cycle with an empty snapshot — its tracked set becomes
empty. -/
theorem updateTrains_empty_snapshot_counterexample :
    (updateTrainsReconcile sampleState []).trains = [] ∧ sampleState.trains ≠ [] := by
  constructor
  · simp [updateTrainsReconcile]
  · simp [sampleState]

/-- C2 (amended): every vehicle whose trip id is absent from the new
snapshot is removed from the tracked set within the cycle (survivors all
carry snapshot trip ids), BUT its in-flight animation is not cancelled by
reconciliation: the animation map only ever gains entries during the
cycle, so the entry of a removed trip id remains (an orphaned entry
persists until the animation's own completion callback fires). -/
theorem updateTrains_removes_but_keeps_animations (st : MapState) (updated : List Train) :
    (∀ t ∈ (updateTrainsReconcile st updated).trains,
      t.tripId ∈ updated.map Train.tripId) ∧
    (∀ id ∈ st.trainAnimations,
      id ∈ (updateTrainsReconcile st updated).trainAnimations) := by
  constructor
  · intro t ht
    unfold updateTrainsReconcile at ht
    simp only [List.mem_filter] at ht
    have := ht.2
    simpa using this
  · intro id hid
    unfold updateTrainsReconcile
    simp only
    exact foldl_processTrain_anims_mono _ _ id hid

/-- Witness for `updateTrains_removes_but_keeps_animations`: the
animation entry of removed `"trip1"` is still present after a cycle
whose snapshot contains only `"trip2"`. -/
theorem updateTrains_removes_but_keeps_animations_witness :
    "trip1" ∈ (updateTrainsReconcile sampleState [trainTwo]).trainAnimations :=
  (updateTrains_removes_but_keeps_animations sampleState [trainTwo]).2 "trip1"
    (by simp [sampleState])

/-- C2 fails as stated: after reconciling `sampleState` against a
snapshot containing only `"trip2"`, the animation map still holds an
entry for `"trip1"` although `"trip1"` is no longer in the tracked set. -/
theorem updateTrains_orphan_animation_counterexample :
    "trip1" ∈ (updateTrainsReconcile sampleState [trainTwo]).trainAnimations ∧
    "trip1" ∉ ((updateTrainsReconcile sampleState [trainTwo]).trains).map Train.tripId := by
  constructor
  · simp [updateTrainsReconcile, sampleState, incCounters, shouldUpdateVehicle,
      processTrain, trainOne, trainTwo, setAnimKey]
  · simp [updateTrainsReconcile, sampleState, incCounters, shouldUpdateVehicle,
      processTrain, trainOne, trainTwo, setAnimKey, updateFirst]

/-! ### Bearing cache (C8) -/

lemma bearing_step_hit (compute : Coord → Option ℚ) (b : ℚ) (k : ℕ) (p pos : Coord)
    (hk : k + 1 < 10)
    (h1 : qabs (pos.1 - p.1) ≤ bearingEps) (h2 : qabs (pos.2 - p.2) ≤ bearingEps) :
    calculateTrainBearingFromRoute compute ⟨some b, k, some p⟩ pos =
      (some b, ⟨some b, k + 1, some p⟩) := by
  have hc : cacheHit ⟨some b, k + 1, some p⟩ pos = true := by
    simp only [cacheHit, positionChangedB, Bool.and_eq_true, Option.isSome_some,
      decide_eq_true_eq, Bool.not_eq_true', Bool.or_eq_false_iff,
      decide_eq_false_iff_not, not_lt]
    exact ⟨⟨trivial, hk⟩, h1, h2⟩
  unfold calculateTrainBearingFromRoute
  simp only [hc, if_true]

lemma bearing_step_miss (compute : Coord → Option ℚ) (cache : BearingCache) (pos : Coord)
    (h : cacheHit ⟨cache.bearing, cache.frameCount + 1, cache.lastPosition⟩ pos = false) :
    (calculateTrainBearingFromRoute compute cache pos).1 = compute pos ∧
    (calculateTrainBearingFromRoute compute cache pos).2.frameCount = 0 ∧
    (calculateTrainBearingFromRoute compute cache pos).2.lastPosition = some pos := by
  unfold calculateTrainBearingFromRoute
  have h' : cacheHit { cache with frameCount := cache.frameCount + 1 } pos = false := h
  simp only [h', Bool.false_eq_true, if_false]
  cases compute pos <;> simp

/-- C8: starting from a freshly computed and cached bearing `b` anchored
at position `p`, each of the next 9 invocations whose position stays
within the `0.0001` epsilon of `p` on both axes returns the cached `b`
unchanged (for every possible `compute`, i.e. without recomputation) and
only bumps the frame counter; the 10th invocation recomputes (its result
is whatever the segment search returns, the counter resets, the position
re-anchors); and from any cache state, an invocation whose position
differs from the anchored position by more than epsilon on some axis
also recomputes. -/
theorem bearing_cache_policy (compute : Coord → Option ℚ) (b : ℚ) (p : Coord)
    (ps : ℕ → Coord)
    (hnear : ∀ i, i < 9 →
      qabs ((ps i).1 - p.1) ≤ bearingEps ∧ qabs ((ps i).2 - p.2) ≤ bearingEps) :
    (∀ i, i < 9 →
      bearingTrace compute ⟨some b, 0, some p⟩ ps i =
        (some b, ⟨some b, i + 1, some p⟩)) ∧
    ((bearingTrace compute ⟨some b, 0, some p⟩ ps 9).1 = compute (ps 9) ∧
      (bearingTrace compute ⟨some b, 0, some p⟩ ps 9).2.frameCount = 0 ∧
      (bearingTrace compute ⟨some b, 0, some p⟩ ps 9).2.lastPosition = some (ps 9)) ∧
    (∀ (c : BearingCache) (pos q : Coord), c.lastPosition = some q →
      (bearingEps < qabs (pos.1 - q.1) ∨ bearingEps < qabs (pos.2 - q.2)) →
      (calculateTrainBearingFromRoute compute c pos).1 = compute pos ∧
      (calculateTrainBearingFromRoute compute c pos).2.frameCount = 0 ∧
      (calculateTrainBearingFromRoute compute c pos).2.lastPosition = some pos) := by
  have main : ∀ i, i < 9 →
      bearingTrace compute ⟨some b, 0, some p⟩ ps i =
        (some b, ⟨some b, i + 1, some p⟩) := by
    intro i
    induction i with
    | zero =>
      intro _
      rw [bearingTrace]
      exact bearing_step_hit compute b 0 p (ps 0) (by omega)
        (hnear 0 (by omega)).1 (hnear 0 (by omega)).2
    | succ n ih =>
      intro hn
      rw [bearingTrace, ih (by omega)]
      exact bearing_step_hit compute b (n + 1) p (ps (n + 1)) (by omega)
        (hnear (n + 1) (by omega)).1 (hnear (n + 1) (by omega)).2
  refine ⟨main, ?_, ?_⟩
  · rw [show (9 : ℕ) = 8 + 1 from rfl, bearingTrace, main 8 (by omega)]
    refine bearing_step_miss compute ⟨some b, 9, some p⟩ (ps 9) ?_
    simp [cacheHit]
  · intro c pos q hq hfar
    refine bearing_step_miss compute c pos ?_
    have : positionChangedB c.lastPosition pos = true := by
      rw [hq]
      unfold positionChangedB
      rcases hfar with hf | hf
      · simp [hf]
      · simp [hf]
    simp [cacheHit, this]

/-- Witness for `bearing_cache_policy`: with a constant position and a
search that would return `7`, the 9th call after caching bearing `1`
still answers with the cached `1`. -/
theorem bearing_cache_policy_witness :
    bearingTrace (fun _ => some 7) ⟨some 1, 0, some (0, 0)⟩ (fun _ => (0, 0)) 8 =
      (some 1, ⟨some 1, 9, some (0, 0)⟩) :=
  (bearing_cache_policy (fun _ => some 7) 1 (0, 0) (fun _ => (0, 0))
    (fun _ _ => by norm_num [qabs, bearingEps])).1 8 (by norm_num)
